import Mathlib

set_option maxRecDepth 8192

/-!
Verification of the summit-photo-mapper client pipeline.  The file gives a
shallow embedding of the retrying HTTP helper (exponentialBackoffFetch),
the file-selection handlers (handleFileChange, removeFile) and the
analysis run (analyzeImages) of src/src/ImagePassionMapper.jsx and of the
two unnamed component variants, and proves theorems settling the
specification claims about them.
-/

namespace SummitPhotoMapper

/-- Cap on selected photos (MAX_FILES, identical in every variant). -/
def MAX_FILES : Nat := 25

/-- A resolved HTTP response: status code and status text. -/
structure Response where
  status : Nat
  statusText : String
deriving DecidableEq

/-- response.ok of the Fetch API: true exactly for statuses 200..299. -/
def Response.ok (r : Response) : Bool := 200 ≤ r.status && r.status ≤ 299

/-- Outcome of one fetch call: the promise resolves with a response or
rejects with a transport error message. -/
inductive FetchOutcome where
  | success (resp : Response)
  | reject (msg : String)
deriving DecidableEq

/-- An error thrown by exponentialBackoffFetch: either the Error built
from a non-ok response (naming its status and status text) or a
propagated transport rejection. -/
inductive JsError where
  | apiStatus (status : Nat) (statusText : String)
  | transport (msg : String)
deriving DecidableEq

/-- What a call to exponentialBackoffFetch produces: a returned response,
a thrown error, or the undefined value produced when the loop body never
runs (maxRetries = 0). -/
inductive FetchResult where
  | ok (resp : Response)
  | thrown (e : JsError)
  | undef
deriving DecidableEq

/-- The backoff delay awaited before the retry that follows attempt k:
Math.pow(2, attempt) * 1000 + Math.random() * 500, with the random draw
r of that attempt passed in explicitly. -/
def delayFor (attempt : Nat) (r : ℚ) : ℚ := 2 ^ attempt * 1000 + r * 500

/-- Observable behaviour of one exponentialBackoffFetch call: its result,
how many fetches it issued, and the delays it awaited, in order. -/
structure FetchTrace where
  result : FetchResult
  attempts : Nat
  delays : List ℚ
deriving DecidableEq

/-- The for-loop of exponentialBackoffFetch from a given attempt on; fuel
counts the remaining iterations (maxRetries - attempt).  outs gives the
outcome of the fetch issued on each attempt, jit the Math.random() draw
used for the delay after each attempt.  The non-ok non-429 branch throws
a status error inside the try block, so it is handled by the catch
branch below it, exactly as in the source. -/
def backoffAux (outs : Nat → FetchOutcome) (jit : Nat → ℚ) (maxRetries : Nat) :
    Nat → Nat → FetchTrace
  | _, 0 => ⟨.undef, 0, []⟩
  | attempt, fuel + 1 =>
    match outs attempt with
    | .success resp =>
      if resp.ok then ⟨.ok resp, 1, []⟩
      else if resp.status = 429 ∧ attempt < maxRetries - 1 then
        let rest := backoffAux outs jit maxRetries (attempt + 1) fuel
        ⟨rest.result, rest.attempts + 1, delayFor attempt (jit attempt) :: rest.delays⟩
      else
        if attempt = maxRetries - 1 then
          ⟨.thrown (.apiStatus resp.status resp.statusText), 1, []⟩
        else
          let rest := backoffAux outs jit maxRetries (attempt + 1) fuel
          ⟨rest.result, rest.attempts + 1, delayFor attempt (jit attempt) :: rest.delays⟩
    | .reject msg =>
      if attempt = maxRetries - 1 then ⟨.thrown (.transport msg), 1, []⟩
      else
        let rest := backoffAux outs jit maxRetries (attempt + 1) fuel
        ⟨rest.result, rest.attempts + 1, delayFor attempt (jit attempt) :: rest.delays⟩

/-- exponentialBackoffFetch: the loop from attempt 0 with maxRetries
iterations available. -/
def exponentialBackoffFetch (outs : Nat → FetchOutcome) (jit : Nat → ℚ)
    (maxRetries : Nat := 3) : FetchTrace :=
  backoffAux outs jit maxRetries 0 maxRetries

/-- An attempt fails when its fetch resolves with a non-ok response or
rejects. -/
def attemptFails : FetchOutcome → Bool
  | .success r => !r.ok
  | .reject _ => true

/-- The error exponentialBackoffFetch derives from a failing attempt. -/
def attemptError : FetchOutcome → JsError
  | .success r => .apiStatus r.status r.statusText
  | .reject m => .transport m

/-- A 500 response followed by successes, as an outcome environment. -/
def outs500then200 : Nat → FetchOutcome := fun k =>
  if k = 0 then .success ⟨500, "Internal Server Error"⟩
  else .success ⟨200, "OK"⟩

/-- The loop never issues more fetches than it has iterations left. -/
lemma backoffAux_attempts_le (outs : Nat → FetchOutcome) (jit : Nat → ℚ)
    (m : Nat) : ∀ (fuel attempt : Nat),
    (backoffAux outs jit m attempt fuel).attempts ≤ fuel := by
  intro fuel
  induction fuel with
  | zero => intro attempt; simp [backoffAux]
  | succ n ih =>
    intro attempt
    simp only [backoffAux]
    cases outs attempt with
    | success resp =>
      by_cases hok : resp.ok
      · simp [hok]
      · simp only [hok, Bool.false_eq_true, if_false]
        by_cases h429 : resp.status = 429 ∧ attempt < m - 1
        · simp only [h429, if_true]
          exact Nat.succ_le_succ (ih (attempt + 1))
        · simp only [h429, if_false]
          by_cases hlast : attempt = m - 1
          · simp [hlast]
          · simp only [hlast, if_false]
            exact Nat.succ_le_succ (ih (attempt + 1))
    | reject msg =>
      by_cases hlast : attempt = m - 1
      · simp [hlast]
      · simp only [hlast, if_false]
        exact Nat.succ_le_succ (ih (attempt + 1))

/-- With enough fuel to reach the last iteration, the loop ends in a
returned ok response or in a thrown error, never by falling through. -/
lemma backoffAux_settles (outs : Nat → FetchOutcome) (jit : Nat → ℚ)
    (m : Nat) : ∀ (fuel attempt : Nat), attempt + fuel = m → 1 ≤ fuel →
    (∃ r, (backoffAux outs jit m attempt fuel).result = .ok r ∧ r.ok = true) ∨
    (∃ e, (backoffAux outs jit m attempt fuel).result = .thrown e) := by
  intro fuel
  induction fuel with
  | zero => intro attempt _ h1; omega
  | succ n ih =>
    intro attempt hsum _
    have hretryfuel : attempt ≠ m - 1 → 1 ≤ n := by omega
    simp only [backoffAux]
    cases outs attempt with
    | success resp =>
      by_cases hok : resp.ok
      · exact Or.inl ⟨resp, by simp [hok], hok⟩
      · simp only [hok, Bool.false_eq_true, if_false]
        by_cases h429 : resp.status = 429 ∧ attempt < m - 1
        · simp only [h429, if_true]
          exact ih (attempt + 1) (by omega) (by omega)
        · simp only [h429, if_false]
          by_cases hlast : attempt = m - 1
          · exact Or.inr ⟨.apiStatus resp.status resp.statusText, by simp [hlast]⟩
          · simp only [hlast, if_false]
            exact ih (attempt + 1) (by omega) (hretryfuel hlast)
    | reject msg =>
      by_cases hlast : attempt = m - 1
      · exact Or.inr ⟨.transport msg, by simp [hlast]⟩
      · simp only [hlast, if_false]
        exact ih (attempt + 1) (by omega) (hretryfuel hlast)

/-- Every delay recorded by the loop follows the backoff formula for the
attempt it succeeds: the delay at position k of the trace belongs to
attempt (start + k). -/
lemma backoffAux_delays_getD (outs : Nat → FetchOutcome) (jit : Nat → ℚ)
    (m : Nat) : ∀ (fuel attempt k : Nat),
    k < (backoffAux outs jit m attempt fuel).delays.length →
    (backoffAux outs jit m attempt fuel).delays.getD k 0 =
      delayFor (attempt + k) (jit (attempt + k)) := by
  intro fuel
  induction fuel with
  | zero => intro attempt k hk; simp [backoffAux] at hk
  | succ n ih =>
    intro attempt k
    simp only [backoffAux]
    cases outs attempt with
    | success resp =>
      dsimp only
      by_cases hok : resp.ok
      · simp [hok]
      · rw [if_neg (by simp [hok])]
        by_cases h429 : resp.status = 429 ∧ attempt < m - 1
        · rw [if_pos h429]
          dsimp only
          intro hk
          cases k with
          | zero => simp
          | succ k =>
            simp only [List.length_cons, Nat.succ_lt_succ_iff] at hk
            have := ih (attempt + 1) k hk
            rw [List.getD_cons_succ, show attempt + (k + 1) = attempt + 1 + k from by omega]
            exact this
        · rw [if_neg h429]
          by_cases hlast : attempt = m - 1
          · rw [if_pos hlast]
            dsimp only
            intro hk
            exact absurd hk (by simp)
          · rw [if_neg hlast]
            dsimp only
            intro hk
            cases k with
            | zero => simp
            | succ k =>
              simp only [List.length_cons, Nat.succ_lt_succ_iff] at hk
              have := ih (attempt + 1) k hk
              rw [List.getD_cons_succ, show attempt + (k + 1) = attempt + 1 + k from by omega]
              exact this
    | reject msg =>
      dsimp only
      by_cases hlast : attempt = m - 1
      · rw [if_pos hlast]
        dsimp only
        intro hk
        exact absurd hk (by simp)
      · rw [if_neg hlast]
        dsimp only
        intro hk
        cases k with
        | zero => simp
        | succ k =>
          simp only [List.length_cons, Nat.succ_lt_succ_iff] at hk
          have := ih (attempt + 1) k hk
          rw [List.getD_cons_succ, show attempt + (k + 1) = attempt + 1 + k from by omega]
          exact this

/-- A failing attempt that is not the last one hands the result over to
the next attempt: the status error thrown for a non-ok response is
caught by the own catch block of the function, which retries. -/
lemma backoffAux_result_fail_retry (outs : Nat → FetchOutcome) (jit : Nat → ℚ)
    (m attempt n : Nat) (hne : attempt ≠ m - 1)
    (hf : attemptFails (outs attempt) = true) :
    (backoffAux outs jit m attempt (n + 1)).result =
      (backoffAux outs jit m (attempt + 1) n).result := by
  simp only [backoffAux]
  cases ho : outs attempt with
  | success resp =>
    have hok : resp.ok = false := by simpa [attemptFails, ho] using hf
    dsimp only
    rw [if_neg (by simp [hok])]
    by_cases h429 : resp.status = 429 ∧ attempt < m - 1
    · rw [if_pos h429]
    · rw [if_neg h429, if_neg hne]
  | reject msg =>
    dsimp only
    rw [if_neg hne]

/-- A failing last attempt throws the error derived from its outcome. -/
lemma backoffAux_result_fail_last (outs : Nat → FetchOutcome) (jit : Nat → ℚ)
    (m attempt n : Nat) (hlast : attempt = m - 1)
    (hf : attemptFails (outs attempt) = true) :
    (backoffAux outs jit m attempt (n + 1)).result =
      .thrown (attemptError (outs attempt)) := by
  simp only [backoffAux]
  cases ho : outs attempt with
  | success resp =>
    have hok : resp.ok = false := by simpa [attemptFails, ho] using hf
    dsimp only
    rw [if_neg (by simp [hok])]
    by_cases h429 : resp.status = 429 ∧ attempt < m - 1
    · exact absurd h429.2 (by omega)
    · rw [if_neg h429, if_pos hlast]
      simp [ho, attemptError]
  | reject msg =>
    dsimp only
    rw [if_pos hlast]
    simp [ho, attemptError]

/-- C1: refuted by the code.  The claim says a non-ok non-429 response
(such as a single 500) fails the call immediately, with exactly one
fetch issued and the status error surfaced.  In the source the status
error is thrown inside the try block, so the catch branch of the same
function swallows it and retries: with outcomes [500, 200] the call
issues a second fetch and returns the 200 response, and with every
attempt answering 500 it issues three fetches before the status error
finally surfaces. -/
theorem c1_non429_response_is_retried :
    (exponentialBackoffFetch outs500then200 (fun _ => 0) 3).attempts = 2 ∧
    (exponentialBackoffFetch outs500then200 (fun _ => 0) 3).result =
      .ok ⟨200, "OK"⟩ ∧
    (exponentialBackoffFetch (fun _ => .success ⟨500, "Internal Server Error"⟩)
      (fun _ => 0) 3).attempts = 3 ∧
    (exponentialBackoffFetch (fun _ => .success ⟨500, "Internal Server Error"⟩)
      (fun _ => 0) 3).result = .thrown (.apiStatus 500 "Internal Server Error") := by
  refine ⟨by decide, by decide, by decide, by decide⟩

/-- The [429, 429, 200] environment from the specification example. -/
def outs429x2ok : Nat → FetchOutcome := fun k =>
  if k < 2 then .success ⟨429, "Too Many Requests"⟩ else .success ⟨200, "OK"⟩

/-- An environment in which every fetch rejects with a transport error. -/
def outsAllReject : Nat → FetchOutcome := fun _ => .reject "network down"

/-- C2: with the default bound of 3 attempts: when the successive
outcomes are [429, 429, ok] the call returns the ok response and issues
exactly 3 fetches; no call with this bound ever issues a fourth fetch,
so 429s and transport failures are retried only while fewer than 3
attempts have been made; and when all 3 attempts fail, the error derived
from the last attempt is the one thrown to the caller. -/
theorem c2_default_retry_contract (outs : Nat → FetchOutcome) (jit : Nat → ℚ)
    (outsB : Nat → FetchOutcome) (jitB : Nat → ℚ) (r1 r2 r3 : Response)
    (h0 : outs 0 = .success r1) (h1 : r1.status = 429)
    (h2 : outs 1 = .success r2) (h3 : r2.status = 429)
    (h4 : outs 2 = .success r3) (h5 : r3.ok = true)
    (hfailB : ∀ k, k < 3 → attemptFails (outsB k) = true) :
    ((exponentialBackoffFetch outs jit 3).result = .ok r3 ∧
      (exponentialBackoffFetch outs jit 3).attempts = 3) ∧
    (exponentialBackoffFetch outsB jitB 3).attempts ≤ 3 ∧
    (exponentialBackoffFetch outsB jitB 3).result =
      .thrown (attemptError (outsB 2)) := by
  refine ⟨?_, backoffAux_attempts_le outsB jitB 3 3 0, ?_⟩
  · have hok1 : r1.ok = false := by simp [Response.ok, h1]
    have hok2 : r2.ok = false := by simp [Response.ok, h3]
    constructor <;>
      simp [exponentialBackoffFetch, backoffAux, h0, h2, h4, h1, h3, h5,
        hok1, hok2]
  · have e0 : (backoffAux outsB jitB 3 0 3).result =
        (backoffAux outsB jitB 3 1 2).result :=
      backoffAux_result_fail_retry outsB jitB 3 0 2 (by omega)
        (hfailB 0 (by omega))
    have e1 : (backoffAux outsB jitB 3 1 2).result =
        (backoffAux outsB jitB 3 2 1).result :=
      backoffAux_result_fail_retry outsB jitB 3 1 1 (by omega)
        (hfailB 1 (by omega))
    have e2 : (backoffAux outsB jitB 3 2 1).result =
        .thrown (attemptError (outsB 2)) :=
      backoffAux_result_fail_last outsB jitB 3 2 0 (by omega)
        (hfailB 2 (by omega))
    simp only [exponentialBackoffFetch]
    rw [e0, e1, e2]

/-- Witness for C2 at the concrete environments [429, 429, 200] and
all-rejecting fetches with zero jitter. -/
theorem c2_default_retry_contract_witness :
    ((exponentialBackoffFetch outs429x2ok (fun _ => 0) 3).result =
        .ok ⟨200, "OK"⟩ ∧
      (exponentialBackoffFetch outs429x2ok (fun _ => 0) 3).attempts = 3) ∧
    (exponentialBackoffFetch outsAllReject (fun _ => 0) 3).attempts ≤ 3 ∧
    (exponentialBackoffFetch outsAllReject (fun _ => 0) 3).result =
      .thrown (attemptError (outsAllReject 2)) :=
  c2_default_retry_contract outs429x2ok (fun _ => 0) outsAllReject (fun _ => 0)
    ⟨429, "Too Many Requests"⟩ ⟨429, "Too Many Requests"⟩ ⟨200, "OK"⟩
    (by decide) (by decide) (by decide) (by decide) (by decide) (by decide)
    (by decide)

/-- C8: the delay before the retry that follows attempt k equals
2 ^ k * 1000 milliseconds plus the jitter term of that attempt, which is
bounded in [0, 500); subtracting the jitter terms, the base delay of
attempt k + 1 is twice the base delay of attempt k. -/
theorem c8_backoff_delay_formula (outs : Nat → FetchOutcome) (jit : Nat → ℚ)
    (m k : Nat) (hj0 : 0 ≤ jit k) (hj1 : jit k < 1)
    (hk : k < (exponentialBackoffFetch outs jit m).delays.length) :
    (exponentialBackoffFetch outs jit m).delays.getD k 0 =
      2 ^ k * 1000 + jit k * 500 ∧
    0 ≤ jit k * 500 ∧ jit k * 500 < 500 ∧
    delayFor (k + 1) (jit (k + 1)) - jit (k + 1) * 500 =
      2 * (delayFor k (jit k) - jit k * 500) := by
  refine ⟨?_, ?_, ?_, ?_⟩
  · have h := backoffAux_delays_getD outs jit m m 0 k hk
    simpa [exponentialBackoffFetch, delayFor] using h
  · positivity
  · have : jit k * 500 < 1 * 500 :=
      mul_lt_mul_of_pos_right hj1 (by norm_num)
    linarith
  · simp only [delayFor, pow_succ]
    ring

/-- Witness for C8: three 429 responses with jitter draw 1/2 record a
first delay, and the formula holds there. -/
theorem c8_backoff_delay_formula_witness :
    (0 : ℚ) ≤ (1 : ℚ) / 2 ∧ (1 : ℚ) / 2 < 1 ∧
    0 < (exponentialBackoffFetch (fun _ => .success ⟨429, "Too Many Requests"⟩)
      (fun _ => 1 / 2) 3).delays.length ∧
    ((exponentialBackoffFetch (fun _ => .success ⟨429, "Too Many Requests"⟩)
        (fun _ => 1 / 2) 3).delays.getD 0 0 =
      2 ^ 0 * 1000 + (1 : ℚ) / 2 * 500 ∧
    (0 : ℚ) ≤ 1 / 2 * 500 ∧ (1 : ℚ) / 2 * 500 < 500 ∧
    delayFor (0 + 1) (1 / 2) - 1 / 2 * 500 =
      2 * (delayFor 0 (1 / 2) - 1 / 2 * 500)) :=
  ⟨by norm_num, by norm_num, by decide,
    c8_backoff_delay_formula (fun _ => .success ⟨429, "Too Many Requests"⟩)
      (fun _ => 1 / 2) 3 0 (by norm_num) (by norm_num) (by decide)⟩

/-- C10: with maxRetries at least 1, exponentialBackoffFetch either
returns a response whose ok field is true or throws; it never hands a
non-ok response or the undefined fall-through value to the caller. -/
theorem c10_returns_ok_or_throws (outs : Nat → FetchOutcome) (jit : Nat → ℚ)
    (m : Nat) (hm : 1 ≤ m) :
    (∀ r, (exponentialBackoffFetch outs jit m).result = .ok r → r.ok = true) ∧
    (exponentialBackoffFetch outs jit m).result ≠ .undef := by
  have h := backoffAux_settles outs jit m m 0 (by omega) hm
  constructor
  · intro r hr
    simp only [exponentialBackoffFetch] at hr
    rcases h with ⟨r2, h2, hok⟩ | ⟨e, he⟩
    · rw [h2] at hr
      injection hr with h4
      rw [← h4]
      exact hok
    · rw [he] at hr
      exact FetchResult.noConfusion hr
  · simp only [exponentialBackoffFetch]
    rcases h with ⟨r2, h2, _⟩ | ⟨e, he⟩
    · rw [h2]
      exact fun hcon => FetchResult.noConfusion hcon
    · rw [he]
      exact fun hcon => FetchResult.noConfusion hcon

/-- Witness for C10 at the all-rejecting environment with the default
bound of 3. -/
theorem c10_returns_ok_or_throws_witness :
    1 ≤ 3 ∧
    ((∀ r, (exponentialBackoffFetch outsAllReject (fun _ => 0) 3).result =
        .ok r → r.ok = true) ∧
      (exponentialBackoffFetch outsAllReject (fun _ => 0) 3).result ≠ .undef) :=
  ⟨by decide, c10_returns_ok_or_throws outsAllReject (fun _ => 0) 3 (by decide)⟩

/-- The parsed model output in the constrained JSON shape
(description plus passionName/confidence pairs). -/
structure ParsedData where
  description : String
  matchedPassions : List (String × String)
deriving DecidableEq

/-- JS truthiness of an optional string: null, undefined and the empty
string are falsy. -/
def jsTruthy : Option String → Bool
  | none => false
  | some s => s != ""

/-- The JS expression a || b on optional strings. -/
def jsOr (a b : Option String) : Option String := if jsTruthy a then a else b

/-- Per-file outcome of the preprocessing environment (FileReader base64
encoding and metadata extraction): it resolves with the encoded data and
a metadata context, or throws with an error message.  The empty string
models a thrown error whose message property is falsy. -/
inductive PreOutcome where
  | success (base64Data : String) (metadataContext : String)
  | failure (msg : String)
deriving DecidableEq

/-- One entry of processedFilesData, as built by the Promise.all map of
analyzeImages. -/
structure ProcessedFile where
  base64Data : Option String
  metadataContext : Option String
  error : Option String
deriving DecidableEq

instance : Inhabited ProcessedFile := ⟨⟨none, none, none⟩⟩

/-- The try/catch body mapped over the selected files: on success the
encoded data is kept, on failure the item records
message || "Failed to read file" and stays without encoded data. -/
def preprocessItem : PreOutcome → ProcessedFile
  | .success b ctx => ⟨some b, some ctx, none⟩
  | .failure m => ⟨none, none, some (if m = "" then "Failed to read file" else m)⟩

/-- One entry of the results state: data, error and the processing
flag. -/
structure ResultItem where
  data : Option ParsedData
  error : Option String
  processing : Bool
deriving DecidableEq

/-- Default item used only to totalize list indexing. -/
def dfltItem : ResultItem := ⟨none, none, true⟩

/-- The fields of the parsed response body apiResult that the loop
inspects: candidates[0].content.parts[0].text, error.message and
error.details[0].message, each none when the optional-chained path is
absent. -/
structure ApiResult where
  jsonText : Option String
  errMessage : Option String
  errDetail : Option String
deriving DecidableEq

/-- Outcome of the network phase for one item: the retrying fetch and
response.json() resolve with an apiResult, or one of them throws with
the given message (the empty string models a falsy message property). -/
inductive InferOutcome where
  | resolved (api : ApiResult)
  | thrown (msg : String)
deriving DecidableEq

/-- The loop body of analyzeImages for one non-skipped item.  parse
stands for JSON.parse on the extracted text; an error value means
JSON.parse throws with that message and control reaches the catch
branch, exactly like a thrown fetch error. -/
def runItem (parse : String → Except String ParsedData)
    (outcome : InferOutcome) (prev : ResultItem) : ResultItem :=
  match outcome with
  | .thrown msg =>
    { prev with data := none,
                error := some (if msg = "" then "File processing failed" else msg),
                processing := false }
  | .resolved api =>
    if jsTruthy api.jsonText then
      match parse (api.jsonText.getD "") with
      | .ok d => { prev with data := some d, error := none, processing := false }
      | .error pmsg =>
        { prev with data := none,
                    error := some (if pmsg = "" then "File processing failed" else pmsg),
                    processing := false }
    else
      { prev with data := none,
                  error := jsOr api.errMessage (jsOr api.errDetail
                    (some "Model response was empty or malformed.")),
                  processing := false }

/-- The sequential for-loop of analyzeImages: pfs is the remaining
suffix of processedFilesData, i the index of its head in the full batch,
cur the currentResults array.  Returns the list of states passed to
setResults inside the loop, in order, together with the final
currentResults. -/
def inferLoop (parse : String → Except String ParsedData)
    (outs : Nat → InferOutcome) :
    List ProcessedFile → Nat → List ResultItem →
      List (List ResultItem) × List ResultItem
  | [], _, cur => ([], cur)
  | pf :: rest, i, cur =>
    if pf.error.isSome then inferLoop parse outs rest (i + 1) cur
    else
      let next := cur.set i (runItem parse (outs i) (cur.getD i dfltItem))
      let tail := inferLoop parse outs rest (i + 1) next
      (next :: tail.1, tail.2)

/-- What one call to analyzeImages does: return silently (no files or
already loading), block with a user-visible error before any work, or
run, publishing a sequence of result lists and ending in a final one. -/
inductive RunOutcome where
  | silentReturn
  | blockedError (msg : String)
  | ran (published : List (List ResultItem)) (final : List ResultItem)
deriving DecidableEq

/-- The initial results array: every item starts with no data, the
preprocessing error if any, and processing set exactly when
preprocessing did not fail. -/
def initialResults (pfs : List ProcessedFile) : List ResultItem :=
  pfs.map (fun pf => ⟨none, pf.error, pf.error.isNone⟩)

/-- The body of a run once pre-run validation has passed: preprocess
every file concurrently, publish the initial results, then run the
sequential inference loop. -/
def runBody (parse : String → Except String ParsedData)
    (outs : Nat → InferOutcome) (pres : List PreOutcome) : RunOutcome :=
  let pfs := pres.map preprocessItem
  let init := initialResults pfs
  let tail := inferLoop parse outs pfs 0 init
  .ran (init :: tail.1) tail.2

/-- analyzeImages of src/src/ImagePassionMapper.jsx: returns early when
no files are selected or a run is already loading; blocks with the API
key error when the credential is falsy; otherwise runs. -/
def analyzeImages (loading : Bool) (apiKey : String)
    (pres : List PreOutcome) (parse : String → Except String ParsedData)
    (outs : Nat → InferOutcome) : RunOutcome :=
  if pres.length = 0 ∨ loading then .silentReturn
  else if apiKey = "" then
    .blockedError "API Key Missing! Please set the VITE_GEMINI_API_KEY environment variable."
  else runBody parse outs pres

/-- analyzeImages of the two unnamed variants: the same gate on the
selection and the loading flag, but the API key check was removed, so
the run starts regardless of the credential. -/
def analyzeImagesNoKeyCheck (loading : Bool) (pres : List PreOutcome)
    (parse : String → Except String ParsedData)
    (outs : Nat → InferOutcome) : RunOutcome :=
  if pres.length = 0 ∨ loading then .silentReturn
  else runBody parse outs pres

/-- The module constant apiKey of the unnamed variants. -/
def apiKeyUnnamed : String := ""

/-- Writing at an index and reading it back with a default. -/
lemma getD_set_self {α : Type} : ∀ (l : List α) (i : Nat) (x d : α),
    i < l.length → (l.set i x).getD i d = x
  | [], _, _, _, h => absurd h (by simp)
  | _ :: _, 0, _, _, _ => rfl
  | _ :: t, i + 1, x, d, h => getD_set_self t i x d (Nat.lt_of_succ_lt_succ h)

/-- Writing at one index leaves reads at any other index unchanged. -/
lemma getD_set_ne {α : Type} : ∀ (l : List α) (i j : Nat) (x d : α),
    i ≠ j → (l.set i x).getD j d = l.getD j d
  | [], _, _, _, _, _ => by simp
  | _ :: _, 0, 0, _, _, h => absurd rfl h
  | _ :: _, 0, _ + 1, _, _, _ => rfl
  | _ :: _, _ + 1, 0, _, _, _ => rfl
  | _ :: t, i + 1, j + 1, x, d, h =>
    getD_set_ne t i j x d (fun hc => h (by rw [hc]))

/-- Reading a mapped list with the mapped default. -/
lemma map_getD {α β : Type} (f : α → β) : ∀ (l : List α) (j : Nat) (d : α),
    (l.map f).getD j (f d) = f (l.getD j d)
  | [], _, _ => rfl
  | _ :: _, 0, _ => rfl
  | _ :: t, j + 1, d => map_getD f t j d

/-- Within bounds, the default of getD is irrelevant. -/
lemma getD_dflt_eq {α : Type} : ∀ (l : List α) (j : Nat) (d1 d2 : α),
    j < l.length → l.getD j d1 = l.getD j d2
  | [], _, _, _, h => absurd h (by simp)
  | _ :: _, 0, _, _, _ => rfl
  | _ :: t, j + 1, d1, d2, h => getD_dflt_eq t j d1 d2 (Nat.lt_of_succ_lt_succ h)

/-- In bounds, getD agrees with get. -/
lemma getD_of_lt {α : Type} : ∀ (l : List α) (i : Nat) (d : α)
    (h : i < l.length), l.getD i d = l.get ⟨i, h⟩
  | _ :: _, 0, _, _ => rfl
  | _ :: t, i + 1, d, h => getD_of_lt t i d (Nat.lt_of_succ_lt_succ h)

/-- Replacing an element that does not satisfy the predicate by one that
does raises the count by one. -/
lemma countP_set_succ {α : Type} (p : α → Bool) :
    ∀ (l : List α) (m : Nat) (x d : α), m < l.length →
    p (l.getD m d) = false → p x = true →
    (l.set m x).countP p = l.countP p + 1
  | [], _, _, _, h, _, _ => absurd h (by simp)
  | a :: t, 0, x, d, _, hpa, hpx => by
    simp [List.countP_cons, hpx, show p a = false from hpa]
  | a :: t, m + 1, x, d, h, hpa, hpx => by
    have ih := countP_set_succ p t m x d (Nat.lt_of_succ_lt_succ h) hpa hpx
    simp only [List.set_cons_succ, List.countP_cons, ih]
    omega

/-- jsOr keeps definedness of its fallback. -/
lemma jsOr_isSome (a b : Option String) (hb : b.isSome = true) :
    (jsOr a b).isSome = true := by
  unfold jsOr
  by_cases h : jsTruthy a
  · rw [if_pos h]
    cases a with
    | none => simp [jsTruthy] at h
    | some s => rfl
  · rw [if_neg h]
    exact hb

/-- A result item in a terminal state: not processing, and either parsed
data with a null error, or a recorded error with null data (the two are
mutually exclusive, so the terminal state is unique). -/
def terminalItem (r : ResultItem) : Prop :=
  r.processing = false ∧
    ((r.data.isSome = true ∧ r.error = none) ∨
      (r.error.isSome = true ∧ r.data = none))

instance (r : ResultItem) : Decidable (terminalItem r) := by
  unfold terminalItem
  infer_instance

/-- Every branch of the loop body yields a terminal item. -/
lemma runItem_terminal (parse : String → Except String ParsedData)
    (o : InferOutcome) (prev : ResultItem) :
    terminalItem (runItem parse o prev) := by
  cases o with
  | thrown msg => exact ⟨rfl, Or.inr ⟨rfl, rfl⟩⟩
  | resolved api =>
    by_cases ht : jsTruthy api.jsonText
    · simp only [runItem, ht, if_true]
      cases parse (api.jsonText.getD "") with
      | ok d => exact ⟨rfl, Or.inl ⟨rfl, rfl⟩⟩
      | error pmsg => exact ⟨rfl, Or.inr ⟨rfl, rfl⟩⟩
    · simp only [runItem, ht, if_false]
      refine ⟨rfl, Or.inr ⟨?_, rfl⟩⟩
      exact jsOr_isSome _ _ (jsOr_isSome _ _ rfl)

/-- The loop body always clears the processing flag. -/
lemma runItem_processing_false (parse : String → Except String ParsedData)
    (o : InferOutcome) (prev : ResultItem) :
    (runItem parse o prev).processing = false :=
  (runItem_terminal parse o prev).1

/-- Pointwise description of the initial results array. -/
lemma initialResults_getD (pfs : List ProcessedFile) (j : Nat) :
    (initialResults pfs).getD j dfltItem =
      ⟨none, (pfs.getD j default).error, (pfs.getD j default).error.isNone⟩ :=
  map_getD _ pfs j default

/-- The final results array has the length of the input array. -/
lemma inferLoop_final_length (parse : String → Except String ParsedData)
    (outs : Nat → InferOutcome) :
    ∀ (pfs : List ProcessedFile) (i : Nat) (cur : List ResultItem),
      (inferLoop parse outs pfs i cur).2.length = cur.length := by
  intro pfs
  induction pfs with
  | nil => intro i cur; rfl
  | cons pf rest ih =>
    intro i cur
    simp only [inferLoop]
    by_cases he : pf.error.isSome
    · rw [if_pos he]
      exact ih (i + 1) cur
    · rw [if_neg he]
      dsimp only
      rw [ih (i + 1) _]
      exact List.length_set ..

/-- Every published list inside the loop has the length of the current
results array. -/
lemma inferLoop_pubs_length (parse : String → Except String ParsedData)
    (outs : Nat → InferOutcome) :
    ∀ (pfs : List ProcessedFile) (i : Nat) (cur : List ResultItem),
      ∀ p ∈ (inferLoop parse outs pfs i cur).1, p.length = cur.length := by
  intro pfs
  induction pfs with
  | nil => intro i cur p hp; simp [inferLoop] at hp
  | cons pf rest ih =>
    intro i cur p hp
    simp only [inferLoop] at hp
    by_cases he : pf.error.isSome
    · rw [if_pos he] at hp
      exact ih (i + 1) cur p hp
    · rw [if_neg he] at hp
      dsimp only at hp
      rcases List.mem_cons.mp hp with rfl | hp2
      · exact List.length_set ..
      · rw [ih (i + 1) _ p hp2]
        exact List.length_set ..

/-- Positions before the loop start are never touched. -/
lemma inferLoop_final_lt (parse : String → Except String ParsedData)
    (outs : Nat → InferOutcome) :
    ∀ (pfs : List ProcessedFile) (i : Nat) (cur : List ResultItem) (j : Nat),
      j < i →
      (inferLoop parse outs pfs i cur).2.getD j dfltItem =
        cur.getD j dfltItem := by
  intro pfs
  induction pfs with
  | nil => intro i cur j _; rfl
  | cons pf rest ih =>
    intro i cur j hj
    simp only [inferLoop]
    by_cases he : pf.error.isSome
    · rw [if_pos he]
      exact ih (i + 1) cur j (by omega)
    · rw [if_neg he]
      dsimp only
      rw [ih (i + 1) _ j (by omega)]
      exact getD_set_ne cur i j _ dfltItem (by omega)

/-- Pointwise description of the final results array: an item whose
preprocessing failed keeps its initial value, every other item is the
loop body applied once to its initial value. -/
lemma inferLoop_final_at (parse : String → Except String ParsedData)
    (outs : Nat → InferOutcome) :
    ∀ (pfs : List ProcessedFile) (i : Nat) (cur : List ResultItem),
      i + pfs.length ≤ cur.length →
      ∀ k, k < pfs.length →
        (inferLoop parse outs pfs i cur).2.getD (i + k) dfltItem =
          if (pfs.getD k default).error.isSome then cur.getD (i + k) dfltItem
          else runItem parse (outs (i + k)) (cur.getD (i + k) dfltItem) := by
  intro pfs
  induction pfs with
  | nil => intro i cur _ k hk; simp at hk
  | cons pf rest ih =>
    intro i cur hlen k hk
    cases k with
    | zero =>
      have hgd : ((pf :: rest).getD 0 default) = pf := rfl
      rw [hgd, Nat.add_zero]
      simp only [inferLoop]
      by_cases he : pf.error.isSome
      · rw [if_pos he, if_pos he]
        exact inferLoop_final_lt parse outs rest (i + 1) cur i (by omega)
      · rw [if_neg he, if_neg he]
        dsimp only
        rw [inferLoop_final_lt parse outs rest (i + 1) _ i (by omega)]
        exact getD_set_self cur i _ dfltItem (by simp at hlen; omega)
    | succ k =>
      have hgd : ((pf :: rest).getD (k + 1) default) = rest.getD k default := rfl
      have hidx : i + (k + 1) = (i + 1) + k := by omega
      have hk2 : k < rest.length := by simp at hk; omega
      rw [hgd, hidx]
      simp only [inferLoop]
      by_cases he : pf.error.isSome
      · rw [if_pos he]
        exact ih (i + 1) cur (by simp at hlen ⊢; omega) k hk2
      · rw [if_neg he]
        dsimp only
        have hset : (cur.set i (runItem parse (outs i)
            (cur.getD i dfltItem))).getD ((i + 1) + k) dfltItem =
            cur.getD ((i + 1) + k) dfltItem :=
          getD_set_ne cur i ((i + 1) + k) _ dfltItem (by omega)
        rw [ih (i + 1) _ (by simp at hlen ⊢; omega) k hk2, hset]

/-- One setResults step inside the loop: a single still-processing item
is replaced by a settled one; every other position is untouched. -/
def pubStep (p q : List ResultItem) : Prop :=
  ∃ m x, m < p.length ∧ (p.getD m dfltItem).processing = true ∧
    x.processing = false ∧ q = p.set m x

/-- The initial state followed by the published states of the loop forms
a chain of single-item settling steps, provided every pending position
is still marked processing. -/
lemma inferLoop_chain (parse : String → Except String ParsedData)
    (outs : Nat → InferOutcome) :
    ∀ (pfs : List ProcessedFile) (i : Nat) (cur : List ResultItem),
      i + pfs.length ≤ cur.length →
      (∀ k, k < pfs.length → (pfs.getD k default).error = none →
        (cur.getD (i + k) dfltItem).processing = true) →
      List.Chain' pubStep (cur :: (inferLoop parse outs pfs i cur).1) := by
  intro pfs
  induction pfs with
  | nil => intro i cur _ _; simp [inferLoop]
  | cons pf rest ih =>
    intro i cur hlen hproc
    simp only [inferLoop]
    by_cases he : pf.error.isSome
    · rw [if_pos he]
      refine ih (i + 1) cur (by simp at hlen ⊢; omega) ?_
      intro k hk hke
      have h := hproc (k + 1) (by simp at hk ⊢; omega) hke
      rwa [show i + (k + 1) = (i + 1) + k from by omega] at h
    · rw [if_neg he]
      dsimp only
      rw [List.chain'_cons]
      constructor
      · refine ⟨i, runItem parse (outs i) (cur.getD i dfltItem),
          by simp at hlen; omega, ?_, runItem_processing_false parse _ _, rfl⟩
        have h := hproc 0 (by simp)
          (Option.not_isSome_iff_eq_none.mp he)
        rwa [Nat.add_zero] at h
      · refine ih (i + 1) _ (by simp at hlen ⊢; omega) ?_
        intro k hk hke
        rw [show (i + 1) + k = i + ((k + 1) : Nat) from by omega,
          getD_set_ne cur i (i + (k + 1)) _ dfltItem (by omega)]
        exact hproc (k + 1) (by simp at hk ⊢; omega) hke

/-- A publication step never changes an already terminal position. -/
lemma pubStep_preserves_settled (p q : List ResultItem) (h : pubStep p q) :
    ∀ j, j < p.length → (p.getD j dfltItem).processing = false →
      q.getD j dfltItem = p.getD j dfltItem := by
  obtain ⟨m, x, hm, hpm, hx, rfl⟩ := h
  intro j hj hterm
  refine getD_set_ne p m j x dfltItem ?_
  intro hc
  rw [hc, hterm] at hpm
  exact Bool.noConfusion hpm

/-- The number of settled items in a published list. -/
def terminalCount (l : List ResultItem) : Nat :=
  l.countP (fun r => !r.processing)

/-- A publication step raises the count of settled items. -/
lemma pubStep_count_le (p q : List ResultItem) (h : pubStep p q) :
    terminalCount p ≤ terminalCount q := by
  obtain ⟨m, x, hm, hpm, hx, rfl⟩ := h
  have hcount := countP_set_succ (fun r => !r.processing) p m x dfltItem hm
    (by show (!(p.getD m dfltItem).processing) = false; rw [hpm]; rfl)
    (by show (!x.processing) = true; rw [hx]; rfl)
  unfold terminalCount
  rw [hcount]
  omega

/-- A run that passes pre-run validation publishes the initial results
followed by the loop publications, and ends in the loop final state. -/
lemma analyzeImages_ran (apiKey : String) (pres : List PreOutcome)
    (parse : String → Except String ParsedData) (outs : Nat → InferOutcome)
    (hk : apiKey ≠ "") (hne : pres ≠ []) :
    analyzeImages false apiKey pres parse outs =
      .ran (initialResults (pres.map preprocessItem) ::
          (inferLoop parse outs (pres.map preprocessItem) 0
            (initialResults (pres.map preprocessItem))).1)
        (inferLoop parse outs (pres.map preprocessItem) 0
          (initialResults (pres.map preprocessItem))).2 := by
  have hcond : ¬(pres.length = 0 ∨ (false : Bool)) := by
    simp [List.length_eq_zero, hne]
  unfold analyzeImages runBody
  rw [if_neg hcond, if_neg hk]

/-- Every pending position of the initial results is marked
processing. -/
lemma initial_pending_processing (pres : List PreOutcome) :
    ∀ k, k < (pres.map preprocessItem).length →
      ((pres.map preprocessItem).getD k default).error = none →
      ((initialResults (pres.map preprocessItem)).getD (0 + k)
        dfltItem).processing = true := by
  intro k _ hke
  rw [Nat.zero_add, initialResults_getD, hke]
  rfl

/-- C3: in a run of analyzeImages on a non-empty batch of at most 25
files in which every inference call resolves (successfully or with an
error), every final item is in exactly one terminal state (data with
null error or an error), no item is left processing, and a published
item that has reached a terminal state is never changed by a later
publication of the run. -/
theorem c3_every_item_settles_once (loading : Bool) (apiKey : String)
    (pres : List PreOutcome) (parse : String → Except String ParsedData)
    (outs : Nat → InferOutcome) (pubs : List (List ResultItem))
    (final : List ResultItem)
    (hl : loading = false) (hk : apiKey ≠ "") (hne : pres ≠ [])
    (hcap : pres.length ≤ 25)
    (hrun : analyzeImages loading apiKey pres parse outs = .ran pubs final) :
    (∀ r ∈ final, terminalItem r) ∧
    List.Chain' (fun p q => ∀ j, j < p.length →
      (p.getD j dfltItem).processing = false →
      q.getD j dfltItem = p.getD j dfltItem) pubs := by
  subst hl
  rw [analyzeImages_ran apiKey pres parse outs hk hne] at hrun
  injection hrun with hpubs hfin
  subst hpubs
  subst hfin
  constructor
  · intro r hr
    rw [List.mem_iff_get] at hr
    obtain ⟨⟨j, hj⟩, rfl⟩ := hr
    rw [← getD_of_lt _ j dfltItem hj]
    have hjlen : j < (pres.map preprocessItem).length := by
      have h1 := inferLoop_final_length parse outs (pres.map preprocessItem) 0
        (initialResults (pres.map preprocessItem))
      rw [h1] at hj
      simpa [initialResults] using hj
    have h := inferLoop_final_at parse outs (pres.map preprocessItem) 0
      (initialResults (pres.map preprocessItem)) (by simp [initialResults])
      j hjlen
    rw [Nat.zero_add] at h
    rw [h]
    by_cases he : ((pres.map preprocessItem).getD j default).error.isSome
    · rw [if_pos he, initialResults_getD]
      obtain ⟨s, hs⟩ := Option.isSome_iff_exists.mp he
      rw [hs]
      exact ⟨rfl, Or.inr ⟨rfl, rfl⟩⟩
    · rw [if_neg he]
      exact runItem_terminal parse _ _
  · exact List.Chain'.imp (fun p q h => pubStep_preserves_settled p q h)
      (inferLoop_chain parse outs (pres.map preprocessItem) 0
        (initialResults (pres.map preprocessItem)) (by simp [initialResults])
        (initial_pending_processing pres))

/-- Witness for C3 at a one-file batch whose inference call throws. -/
theorem c3_every_item_settles_once_witness :
    (false = false) ∧ ("k" : String) ≠ "" ∧
    [PreOutcome.success "a" "b"] ≠ ([] : List PreOutcome) ∧
    [PreOutcome.success "a" "b"].length ≤ 25 ∧
    analyzeImages false "k" [PreOutcome.success "a" "b"]
      (fun _ => Except.error "bad") (fun _ => .thrown "x") =
      .ran [[⟨none, none, true⟩], [⟨none, some "x", false⟩]]
        [⟨none, some "x", false⟩] ∧
    ((∀ r ∈ [(⟨none, some "x", false⟩ : ResultItem)], terminalItem r) ∧
      List.Chain' (fun p q => ∀ j, j < p.length →
        (p.getD j dfltItem).processing = false →
        q.getD j dfltItem = p.getD j dfltItem)
        [[⟨none, none, true⟩], [⟨none, some "x", false⟩]]) :=
  ⟨rfl, by decide, by decide, by decide, by decide,
    c3_every_item_settles_once false "k" [PreOutcome.success "a" "b"]
      (fun _ => Except.error "bad") (fun _ => .thrown "x")
      [[⟨none, none, true⟩], [⟨none, some "x", false⟩]]
      [⟨none, some "x", false⟩] rfl (by decide) (by decide) (by decide)
      (by decide)⟩

/-- C4: within one run, every published result list covers the whole
batch, and the count of settled (not processing) items never decreases
from one publication to the next. -/
theorem c4_publication_monotone (loading : Bool) (apiKey : String)
    (pres : List PreOutcome) (parse : String → Except String ParsedData)
    (outs : Nat → InferOutcome) (pubs : List (List ResultItem))
    (final : List ResultItem)
    (hl : loading = false) (hk : apiKey ≠ "") (hne : pres ≠ [])
    (hrun : analyzeImages loading apiKey pres parse outs = .ran pubs final) :
    (∀ p ∈ pubs, p.length = pres.length) ∧
    List.Chain' (fun p q => terminalCount p ≤ terminalCount q) pubs := by
  subst hl
  rw [analyzeImages_ran apiKey pres parse outs hk hne] at hrun
  injection hrun with hpubs hfin
  subst hpubs
  subst hfin
  constructor
  · intro p hp
    rcases List.mem_cons.mp hp with rfl | hp2
    · simp [initialResults]
    · rw [inferLoop_pubs_length parse outs _ 0 _ p hp2]
      simp [initialResults]
  · exact List.Chain'.imp (fun p q h => pubStep_count_le p q h)
      (inferLoop_chain parse outs (pres.map preprocessItem) 0
        (initialResults (pres.map preprocessItem)) (by simp [initialResults])
        (initial_pending_processing pres))

/-- Witness for C4 at a two-file batch with a parse success and a thrown
call. -/
theorem c4_publication_monotone_witness :
    (false = false) ∧ ("k" : String) ≠ "" ∧
    [PreOutcome.success "a" "b", PreOutcome.success "c" "d"] ≠
      ([] : List PreOutcome) ∧
    analyzeImages false "k"
      [PreOutcome.success "a" "b", PreOutcome.success "c" "d"]
      (fun _ => Except.ok ⟨"desc", []⟩)
      (fun i => if i = 0 then .thrown "x"
        else .resolved ⟨some "t", none, none⟩) =
      .ran [[⟨none, none, true⟩, ⟨none, none, true⟩],
          [⟨none, some "x", false⟩, ⟨none, none, true⟩],
          [⟨none, some "x", false⟩, ⟨some ⟨"desc", []⟩, none, false⟩]]
        [⟨none, some "x", false⟩, ⟨some ⟨"desc", []⟩, none, false⟩] ∧
    ((∀ p ∈ [[(⟨none, none, true⟩ : ResultItem), ⟨none, none, true⟩],
          [⟨none, some "x", false⟩, ⟨none, none, true⟩],
          [⟨none, some "x", false⟩, ⟨some ⟨"desc", []⟩, none, false⟩]],
        p.length =
          [PreOutcome.success "a" "b", PreOutcome.success "c" "d"].length) ∧
      List.Chain' (fun p q => terminalCount p ≤ terminalCount q)
        [[⟨none, none, true⟩, ⟨none, none, true⟩],
          [⟨none, some "x", false⟩, ⟨none, none, true⟩],
          [⟨none, some "x", false⟩, ⟨some ⟨"desc", []⟩, none, false⟩]]) :=
  ⟨rfl, by decide, by decide, by decide,
    c4_publication_monotone false "k"
      [PreOutcome.success "a" "b", PreOutcome.success "c" "d"]
      (fun _ => Except.ok ⟨"desc", []⟩)
      (fun i => if i = 0 then .thrown "x"
        else .resolved ⟨some "t", none, none⟩)
      [[⟨none, none, true⟩, ⟨none, none, true⟩],
        [⟨none, some "x", false⟩, ⟨none, none, true⟩],
        [⟨none, some "x", false⟩, ⟨some ⟨"desc", []⟩, none, false⟩]]
      [⟨none, some "x", false⟩, ⟨some ⟨"desc", []⟩, none, false⟩]
      rfl (by decide) (by decide) (by decide)⟩

/-- C6: a preprocessing failure on file i records the derived error on
item i only, which the loop skips and leaves in its terminal error
state; every file whose preprocessing succeeded is sent for inference
and reaches the terminal state determined by its own call, independent
of the failure of file i; the run itself still completes (the theorem
applies to a completed .ran outcome whose shape a single failing item
cannot change). -/
theorem c6_preprocessing_failure_isolated (loading : Bool) (apiKey : String)
    (pres : List PreOutcome) (parse : String → Except String ParsedData)
    (outs : Nat → InferOutcome) (pubs : List (List ResultItem))
    (final : List ResultItem) (i : Nat) (msg : String)
    (hl : loading = false) (hk : apiKey ≠ "") (hne : pres ≠ [])
    (hrun : analyzeImages loading apiKey pres parse outs = .ran pubs final)
    (hilen : i < pres.length)
    (hi : pres.getD i (.failure "") = .failure msg) :
    final.getD i dfltItem =
      ⟨none, some (if msg = "" then "Failed to read file" else msg), false⟩ ∧
    ∀ j b ctx, j < pres.length → pres.getD j (.failure "") = .success b ctx →
      final.getD j dfltItem = runItem parse (outs j) ⟨none, none, true⟩ ∧
      terminalItem (final.getD j dfltItem) := by
  subst hl
  rw [analyzeImages_ran apiKey pres parse outs hk hne] at hrun
  injection hrun with hpubs hfin
  subst hpubs
  subst hfin
  have hfinat := inferLoop_final_at parse outs (pres.map preprocessItem) 0
    (initialResults (pres.map preprocessItem)) (by simp [initialResults])
  constructor
  · have hilen2 : i < (pres.map preprocessItem).length := by simpa using hilen
    have hpfi : (pres.map preprocessItem).getD i default =
        preprocessItem (.failure msg) := by
      rw [getD_dflt_eq _ i default (preprocessItem (.failure "")) hilen2,
        map_getD preprocessItem pres i (.failure ""), hi]
    have h := hfinat i hilen2
    rw [Nat.zero_add] at h
    rw [h, if_pos (by rw [hpfi]; rfl), initialResults_getD, hpfi]
    rfl
  · intro j b ctx hjlen hj
    have hjlen2 : j < (pres.map preprocessItem).length := by simpa using hjlen
    have hpfj : (pres.map preprocessItem).getD j default =
        preprocessItem (.success b ctx) := by
      rw [getD_dflt_eq _ j default (preprocessItem (.failure "")) hjlen2,
        map_getD preprocessItem pres j (.failure ""), hj]
    have hcond : ¬(((pres.map preprocessItem).getD j
        default).error.isSome = true) := by
      rw [hpfj]
      simp [preprocessItem]
    have h := hfinat j hjlen2
    rw [Nat.zero_add] at h
    constructor
    · rw [h, if_neg hcond, initialResults_getD, hpfj]
      rfl
    · rw [h, if_neg hcond]
      exact runItem_terminal parse _ _

/-- Witness for C6 at a two-file batch whose first file fails
preprocessing. -/
theorem c6_preprocessing_failure_isolated_witness :
    (false = false) ∧ ("k" : String) ≠ "" ∧
    [PreOutcome.failure "boom", PreOutcome.success "a" "b"] ≠
      ([] : List PreOutcome) ∧
    analyzeImages false "k"
      [PreOutcome.failure "boom", PreOutcome.success "a" "b"]
      (fun _ => Except.error "bad") (fun _ => .thrown "x") =
      .ran [[⟨none, some "boom", false⟩, ⟨none, none, true⟩],
          [⟨none, some "boom", false⟩, ⟨none, some "x", false⟩]]
        [⟨none, some "boom", false⟩, ⟨none, some "x", false⟩] ∧
    (0 < [PreOutcome.failure "boom", PreOutcome.success "a" "b"].length) ∧
    ([PreOutcome.failure "boom", PreOutcome.success "a" "b"].getD 0
      (.failure "") = .failure "boom") ∧
    (([(⟨none, some "boom", false⟩ : ResultItem),
        ⟨none, some "x", false⟩].getD 0 dfltItem =
      ⟨none, some (if "boom" = "" then "Failed to read file" else "boom"),
        false⟩) ∧
    ∀ j b ctx,
      j < [PreOutcome.failure "boom", PreOutcome.success "a" "b"].length →
      [PreOutcome.failure "boom", PreOutcome.success "a" "b"].getD j
        (.failure "") = .success b ctx →
      [(⟨none, some "boom", false⟩ : ResultItem),
        ⟨none, some "x", false⟩].getD j dfltItem =
        runItem (fun _ => Except.error "bad") ((fun _ => .thrown "x") j)
          ⟨none, none, true⟩ ∧
      terminalItem ([(⟨none, some "boom", false⟩ : ResultItem),
        ⟨none, some "x", false⟩].getD j dfltItem)) :=
  ⟨rfl, by decide, by decide, by decide, by decide, by decide,
    c6_preprocessing_failure_isolated false "k"
      [PreOutcome.failure "boom", PreOutcome.success "a" "b"]
      (fun _ => Except.error "bad") (fun _ => .thrown "x")
      [[⟨none, some "boom", false⟩, ⟨none, none, true⟩],
        [⟨none, some "boom", false⟩, ⟨none, some "x", false⟩]]
      [⟨none, some "boom", false⟩, ⟨none, some "x", false⟩] 0 "boom"
      rfl (by decide) (by decide) (by decide) (by decide) (by decide)⟩

/-- C7: refuted as stated.  The claim requires every variant to block
with a user-visible error and not start the run when the credential is
absent, but the two unnamed variants removed the key check: with their
module constant apiKey equal to the empty string, a run on a selected
file starts, preprocesses it and consumes its inference outcome. -/
theorem c7_counterexample_unnamed_variant_runs :
    apiKeyUnnamed = "" ∧
    analyzeImagesNoKeyCheck false [PreOutcome.success "ZGF0YQ==" "ctx"]
      (fun _ => Except.error "parse") (fun _ => .thrown "network down") =
      .ran [[⟨none, none, true⟩], [⟨none, some "network down", false⟩]]
        [⟨none, some "network down", false⟩] :=
  ⟨rfl, by decide⟩

/-- C7 (amended): in the primary variant, with files selected and no run
in flight, an absent API key produces the blocking user-visible error
and the run does not start: the outcome carries no publication and no
inference work. -/
theorem c7_primary_variant_blocks (pres : List PreOutcome)
    (parse : String → Except String ParsedData) (outs : Nat → InferOutcome)
    (hne : pres ≠ []) :
    analyzeImages false "" pres parse outs =
      .blockedError
        "API Key Missing! Please set the VITE_GEMINI_API_KEY environment variable." := by
  have hcond : ¬(pres.length = 0 ∨ (false : Bool)) := by
    simp [List.length_eq_zero, hne]
  unfold analyzeImages
  rw [if_neg hcond, if_pos rfl]

/-- Witness for the amended C7 at a one-file selection. -/
theorem c7_primary_variant_blocks_witness :
    [PreOutcome.success "a" "b"] ≠ ([] : List PreOutcome) ∧
    analyzeImages false "" [PreOutcome.success "a" "b"]
      (fun _ => Except.error "parse") (fun _ => .thrown "x") =
      .blockedError
        "API Key Missing! Please set the VITE_GEMINI_API_KEY environment variable." :=
  ⟨by decide, c7_primary_variant_blocks [PreOutcome.success "a" "b"]
    (fun _ => Except.error "parse") (fun _ => .thrown "x") (by decide)⟩

/-- A selected file: the selection logic inspects only its MIME type
(file.type in the source). -/
structure JsFile where
  name : String
  mimeType : String
deriving DecidableEq

/-- The component state touched by the selection handlers. -/
structure SelState where
  selectedFiles : List JsFile
  results : List ResultItem
  errorMsg : Option String
deriving DecidableEq

/-- JS String.prototype.startsWith: a prefix test on the character
sequence. -/
def strStartsWith (s pre : String) : Bool := pre.data.isPrefixOf s.data

/-- handleFileChange: clears the inline error, keeps only image/* files
among the chosen ones, rejects the whole addition with the limit message
when the combined count would exceed MAX_FILES, and otherwise appends
(capped at MAX_FILES) and resets results when the selection grew. -/
def handleFileChange (chosen : List JsFile) (st : SelState) : SelState :=
  let newFiles := chosen.filter (fun f => strStartsWith f.mimeType "image/")
  if st.selectedFiles.length + newFiles.length > MAX_FILES then
    { st with errorMsg := some "Maximum of 25 photos allowed. Please select fewer files." }
  else
    let updated := (st.selectedFiles ++ newFiles).take MAX_FILES
    { selectedFiles := updated,
      results := if st.selectedFiles.length ≠ updated.length then [] else st.results,
      errorMsg := none }

/-- removeFile: a no-op while loading; otherwise drops the entry whose
position equals the given index (a filter over the indexed list) and
clears the results. -/
def removeFile (indexToRemove : Nat) (loading : Bool) (st : SelState) :
    SelState :=
  if loading then st
  else
    { st with
      selectedFiles :=
        (st.selectedFiles.enum.filter (fun p => p.1 != indexToRemove)).map
          Prod.snd,
      results := [] }

/-- C5: when the current selection plus the newly chosen image files
would exceed the cap of 25, handleFileChange leaves the selection and
the results unchanged and sets the user-visible limit message. -/
theorem c5_over_cap_addition_rejected (chosen : List JsFile) (st : SelState)
    (h : st.selectedFiles.length +
      (chosen.filter (fun f => strStartsWith f.mimeType "image/")).length >
        MAX_FILES) :
    (handleFileChange chosen st).selectedFiles = st.selectedFiles ∧
    (handleFileChange chosen st).results = st.results ∧
    (handleFileChange chosen st).errorMsg =
      some "Maximum of 25 photos allowed. Please select fewer files." := by
  unfold handleFileChange
  rw [if_pos h]
  exact ⟨rfl, rfl, rfl⟩

/-- Twenty-six image files, one more than the cap. -/
def manyPngs : List JsFile := List.replicate 26 ⟨"f.png", "image/png"⟩

/-- Witness for C5: adding 26 image files to an empty selection. -/
theorem c5_over_cap_addition_rejected_witness :
    ((⟨[], [], none⟩ : SelState).selectedFiles.length +
      (manyPngs.filter (fun f => strStartsWith f.mimeType "image/")).length >
        MAX_FILES) ∧
    ((handleFileChange manyPngs ⟨[], [], none⟩).selectedFiles = [] ∧
      (handleFileChange manyPngs ⟨[], [], none⟩).results = [] ∧
      (handleFileChange manyPngs ⟨[], [], none⟩).errorMsg =
        some "Maximum of 25 photos allowed. Please select fewer files.") :=
  ⟨by decide, c5_over_cap_addition_rejected manyPngs ⟨[], [], none⟩
    (by decide)⟩

/-- Filtering an indexed list on positions different from idx and
projecting back is removal at position idx. -/
lemma enumFrom_filter_ne_eraseIdx {α : Type} :
    ∀ (l : List α) (n idx : Nat),
      ((l.enumFrom n).filter (fun p => p.1 != idx)).map Prod.snd =
        if idx < n then l else l.eraseIdx (idx - n) := by
  intro l
  induction l with
  | nil => intro n idx; simp
  | cons a t ih =>
    intro n idx
    simp only [List.enumFrom_cons, List.filter_cons]
    by_cases h : n = idx
    · rw [if_neg (by simp [h]), if_neg (by omega)]
      have hih := ih (n + 1) idx
      rw [if_pos (by omega)] at hih
      rw [hih, show idx - n = 0 from by omega, List.eraseIdx_cons_zero]
    · rw [if_pos (by simp [h]), List.map_cons]
      have hih := ih (n + 1) idx
      by_cases hlt : idx < n
      · rw [if_pos (by omega)] at hih
        rw [hih, if_pos hlt]
      · rw [if_neg (by omega)] at hih
        rw [hih, if_neg hlt,
          show idx - n = (idx - (n + 1)) + 1 from by omega,
          List.eraseIdx_cons_succ]

/-- C9: removeFile never throws; while loading it changes nothing, and
when it takes effect it clears the result set and removes exactly the
file at the given position, preserving the order of the remaining
files (and leaving the inline error untouched). -/
theorem c9_removeFile_clears_results (idx : Nat) (loading : Bool)
    (st : SelState) :
    (loading = true → removeFile idx loading st = st) ∧
    (loading = false →
      (removeFile idx loading st).results = [] ∧
      (removeFile idx loading st).selectedFiles =
        st.selectedFiles.eraseIdx idx ∧
      (removeFile idx loading st).errorMsg = st.errorMsg) := by
  constructor
  · intro hl
    simp [removeFile, hl]
  · intro hl
    subst hl
    unfold removeFile
    rw [if_neg (by simp)]
    refine ⟨rfl, ?_, rfl⟩
    have h := enumFrom_filter_ne_eraseIdx st.selectedFiles 0 idx
    rw [if_neg (by omega), Nat.sub_zero] at h
    exact h

/-- Witness for C9: removing position 1 from a two-file selection with a
pending result list. -/
theorem c9_removeFile_clears_results_witness :
    (removeFile 1 false
      ⟨[⟨"a.png", "image/png"⟩, ⟨"b.png", "image/png"⟩],
        [⟨none, none, true⟩], some "e"⟩).results = [] ∧
    (removeFile 1 false
      ⟨[⟨"a.png", "image/png"⟩, ⟨"b.png", "image/png"⟩],
        [⟨none, none, true⟩], some "e"⟩).selectedFiles =
      ([⟨"a.png", "image/png"⟩, ⟨"b.png", "image/png"⟩] :
        List JsFile).eraseIdx 1 ∧
    (removeFile 1 false
      ⟨[⟨"a.png", "image/png"⟩, ⟨"b.png", "image/png"⟩],
        [⟨none, none, true⟩], some "e"⟩).errorMsg = some "e" :=
  (c9_removeFile_clears_results 1 false
    ⟨[⟨"a.png", "image/png"⟩, ⟨"b.png", "image/png"⟩],
      [⟨none, none, true⟩], some "e"⟩).2 rfl

end SummitPhotoMapper
